import Mathlib

/-!
Shallow embedding of the HuggingFace publishing logic of the
Mozhii RAG Data Platform (src/app/services/huggingface.py and the
chunked-push section of src/app/routes/admin.py), together with
theorems settling the behavioural claims about it.

Conventions of the embedding:
* Remote behaviour is an oracle `env : Nat -> CommitResult` giving the
  outcome of the n-th `create_commit` call made during one invocation.
* Side effects (commit calls, back-off sleeps, local marker writes) are
  recorded in an explicit event trace.
* A Python exception that escapes a function is modelled as a `raised`
  outcome carrying the message; effects performed before the raise stay
  in the trace.
* Machine integers do not overflow here (Python ints are unbounded), so
  counters are `Nat`.
-/

set_option maxRecDepth 10000

namespace RagPlatform

/-- One chunk record as read from a chunk JSON file.  The code reads two
fields: `chunk_index` (via dict `get`, so possibly absent) and the
`pushed_to_hf` marker, of which only truthiness is ever tested (the
stored timestamp string is always truthy), modelled as a `Bool`.  The
rest of the JSON record is abstracted as `payload`. -/
structure Chunk where
  chunk_index : Option Nat
  pushed_to_hf : Bool
  payload : String
deriving Repr, DecidableEq

/-- Serialisation stand-in for `json.dumps(chunk, ...)`: an injective
encoding of the modelled record. -/
def encodeChunk (c : Chunk) : String :=
  "json(" ++ (match c.chunk_index with | some i => toString i | none => "absent")
    ++ "," ++ (if c.pushed_to_hf then "marked" else "unmarked")
    ++ "," ++ c.payload ++ ")"

/-- Outcome of one `create_commit` call, as the except-clauses of the
code distinguish them: success, an `HfHubHTTPError` carrying a status
code (`0` when the exception has no response object;
`RepositoryNotFoundError` is a subclass of `HfHubHTTPError` and lands
here with its own status), or any other exception. -/
inductive CommitResult where
  | ok
  | httpError (statusCode : Nat)
  | otherError
deriving Repr, DecidableEq

/-- The effects the publishing code performs: a `create_commit` network
call (repository, list of (path, content) operations, message), a
back-off `time.sleep`, or a local JSON file write (used only by the
route when persisting the `pushed_to_hf` marker). -/
inductive Event where
  | commit (repo : String) (ops : List (String × String)) (message : String)
  | sleep (seconds : Nat)
  | localWrite (path : String) (record : Chunk)
deriving Repr, DecidableEq

/-- The operations list of a commit event (empty for other events). -/
def opsOf : Event → List (String × String)
  | Event.commit _ ops _ => ops
  | _ => []

/-- Number of commit calls in a trace. -/
def commitCount (t : List Event) : Nat :=
  (t.filter (fun e => match e with | Event.commit _ _ _ => true | _ => false)).length

/-- The sleep durations of a trace, in order. -/
def sleepsOf : List Event → List Nat
  | [] => []
  | Event.sleep w :: r => w :: sleepsOf r
  | _ :: r => sleepsOf r

/-- A commit or a sleep: the only effects the service itself performs. -/
def networkOnly (e : Event) : Prop :=
  (∃ repo ops msg, e = Event.commit repo ops msg) ∨ (∃ w, e = Event.sleep w)

/-- The service object: the token (the `api` client exists iff the token
is truthy, so `is_configured` reduces to the token being non-empty) and
the three configured repository names. -/
structure HuggingFaceService where
  token : String
  raw_repo : String
  cleaned_repo : String
  chunked_repo : String
deriving Repr, DecidableEq

/-- `is_configured`: `bool(self.token and self.api)`. -/
def isConfigured (svc : HuggingFaceService) : Bool :=
  !(svc.token = "")

/-- Python `repo or default`: an absent or empty (falsy) string selects
the default. -/
def pyOr (repo : Option String) (dflt : String) : String :=
  match repo with
  | some s => if s = "" then dflt else s
  | none => dflt

/-- Python `format(n, "02d")` for a natural number: zero-padded to at
least two digits. -/
def format02d (n : Nat) : String :=
  if n < 10 then "0" ++ toString n else toString n

/-- Path of a chunk inside the operations list:
`f-string folder/chunk_\x7bchunk.get("chunk_index", 1):02d\x7d.json`. -/
def chunkOpPath (folder : String) (c : Chunk) : String :=
  folder ++ "/chunk_" ++ format02d (c.chunk_index.getD 1) ++ ".json"

/-- The operations of one batch commit: one `CommitOperationAdd` per
chunk, path from `chunkOpPath`, content the serialised chunk. -/
def batchOps (folder : String) (batch : List Chunk) : List (String × String) :=
  batch.map (fun c => (chunkOpPath folder c, encodeChunk c))

/-- Commit message of one batch:
`Add chunks \x7bstart+1\x7d-\x7bstart+len\x7d for \x7bfolder\x7d`. -/
def commitMsg (folder : String) (batchStart batchLen : Nat) : String :=
  "Add chunks " ++ toString (batchStart + 1) ++ "-" ++ toString (batchStart + batchLen)
    ++ " for " ++ folder

/-- Name recorded for a failed chunk:
`f-string folder/chunk_\x7bchunk.get("chunk_index", "?"):02d\x7d.json`.
When `chunk_index` is absent the default is the string `"?"`, and
formatting a string with the format code `02d` raises a `ValueError`,
which escapes the except-handler and aborts the whole call. -/
def failedNameOf (folder : String) (c : Chunk) : Except String String :=
  match c.chunk_index with
  | some i => Except.ok (folder ++ "/chunk_" ++ format02d i ++ ".json")
  | none => Except.error "ValueError: unknown format code d for object of type str"

/-- The failed-chunk names of a whole batch; the first absent
`chunk_index` raises (appends made before the raise are lost with the
local list). -/
def batchFailNames (folder : String) (batch : List Chunk) : Except String (List String) :=
  batch.mapM (failedNameOf folder)

/-- Python slicing loop `for batch_start in range(0, len(chunks), n)`
with `chunks[batch_start : batch_start + n]`, for `n ≥ 1`: consecutive
order-preserving slices of length at most `n`.  Structural recursion on
a fuel bounded by the list length (each step consumes at least one
element when `n ≥ 1`). -/
def chunkListAux {α : Type} (n : Nat) : Nat → List α → List (List α)
  | _, [] => []
  | 0, _ :: _ => []
  | fuel + 1, x :: xs => (x :: List.take (n - 1) xs) :: chunkListAux n fuel (List.drop (n - 1) xs)

/-- The batches of a chunk list for batch size `n ≥ 1`. -/
def chunkList {α : Type} (n : Nat) (l : List α) : List (List α) :=
  chunkListAux n l.length l

/-- State threaded through the batch loop: the running index of
`create_commit` calls (feeding the environment oracle), the
`uploaded_count` and `failed_chunks` accumulators, and the event trace
so far. -/
structure LoopState where
  callIdx : Nat
  uploaded : Nat
  failed : List String
  trace : List Event
deriving Repr, DecidableEq

/-- `MAX_RETRIES` of the source. -/
def MAX_RETRIES : Nat := 3

/-- The retry loop `for attempt in range(1, MAX_RETRIES + 1)` for one
batch, over the list of remaining attempt numbers.  On success the batch
length is added to `uploaded` and the loop breaks.  On `HfHubHTTPError`
the code sleeps `2 ^ attempt` and continues when
`status_code == 429 or attempt < MAX_RETRIES` (so a 429 on the final
attempt sleeps and lets the loop end with nothing recorded), otherwise
it records the failed names and breaks; recording raises when a chunk
has no `chunk_index`.  Any other exception sleeps and continues when
`attempt < MAX_RETRIES`, else records and breaks.  Returns the state and
an optional escaped-exception message. -/
def tryAttempts (env : Nat → CommitResult) (target msg : String)
    (ops : List (String × String)) (failRes : Except String (List String))
    (batchLen : Nat) : List Nat → LoopState → LoopState × Option String
  | [], s => (s, none)
  | attempt :: rest, s =>
    let s1 : LoopState :=
      { s with callIdx := s.callIdx + 1, trace := s.trace ++ [Event.commit target ops msg] }
    match env s.callIdx with
    | CommitResult.ok => ({ s1 with uploaded := s1.uploaded + batchLen }, none)
    | CommitResult.httpError code =>
      if code == 429 || !rest.isEmpty then
        tryAttempts env target msg ops failRes batchLen rest
          { s1 with trace := s1.trace ++ [Event.sleep (2 ^ attempt)] }
      else
        match failRes with
        | Except.ok names => ({ s1 with failed := s1.failed ++ names }, none)
        | Except.error m => (s1, some m)
    | CommitResult.otherError =>
      if !rest.isEmpty then
        tryAttempts env target msg ops failRes batchLen rest
          { s1 with trace := s1.trace ++ [Event.sleep (2 ^ attempt)] }
      else
        match failRes with
        | Except.ok names => ({ s1 with failed := s1.failed ++ names }, none)
        | Except.error m => (s1, some m)

/-- The attempt numbers `range(1, MAX_RETRIES + 1)`. -/
def attemptNumbers : List Nat := [1, 2, 3]

/-- The outer loop over the batches, each paired with its
`batch_start`. -/
def runBatches (env : Nat → CommitResult) (target folder : String) :
    List (Nat × List Chunk) → LoopState → LoopState × Option String
  | [], s => (s, none)
  | (bstart, batch) :: rest, s =>
    match tryAttempts env target (commitMsg folder bstart batch.length)
        (batchOps folder batch) (batchFailNames folder batch) batch.length
        attemptNumbers s with
    | (s1, none) => runBatches env target folder rest s1
    | (s1, some m) => (s1, some m)

/-- Batches paired with their `batch_start` offsets `0, n, 2n, ...`. -/
def withStarts (n : Nat) (bl : List (List Chunk)) : List (Nat × List Chunk) :=
  List.zip ((List.range bl.length).map (fun i => i * n)) bl

/-- The result dict of `upload_chunks_batch` on the normal path. -/
structure UploadResult where
  success : Bool
  message : String
  repo : String
  uploaded_count : Nat
  failed_count : Nat
  failed_chunks : List String
deriving Repr, DecidableEq

/-- How one call to `upload_chunks_batch` ends: the not-configured early
return, a normal report dict, or an escaped exception. -/
inductive UploadOutcome where
  | notConfigured
  | report (r : UploadResult)
  | raised (msg : String)
deriving Repr, DecidableEq

/-- One run of `upload_chunks_batch`: its event trace and outcome. -/
structure UploadRun where
  trace : List Event
  outcome : UploadOutcome
deriving Repr, DecidableEq

/-- Shallow embedding of `HuggingFaceService.upload_chunks_batch`.
`env` gives the outcome of each successive `create_commit` call.  A
`batch_size` of `0` raises in `range` (step must not be zero). -/
def uploadChunksBatch (env : Nat → CommitResult) (svc : HuggingFaceService)
    (folder : String) (chunks : List Chunk) (repo : Option String)
    (batch_size : Nat) : UploadRun :=
  if svc.token = "" then
    { trace := [], outcome := UploadOutcome.notConfigured }
  else if batch_size = 0 then
    { trace := [], outcome := UploadOutcome.raised "ValueError: range arg 3 must not be zero" }
  else
    let target := pyOr repo svc.chunked_repo
    match runBatches env target folder (withStarts batch_size (chunkList batch_size chunks))
        { callIdx := 0, uploaded := 0, failed := [], trace := [] } with
    | (s, some m) => { trace := s.trace, outcome := UploadOutcome.raised m }
    | (s, none) =>
      { trace := s.trace,
        outcome := UploadOutcome.report
          { success := s.failed.isEmpty,
            message := "Uploaded " ++ toString s.uploaded ++ " chunks ("
              ++ toString s.failed.length ++ " failed) to " ++ target,
            repo := target,
            uploaded_count := s.uploaded,
            failed_count := s.failed.length,
            failed_chunks := s.failed } }

/-- Result dict of the single-file upload helpers (only success and an
informational string matter to the claims; the three except-branches of
`upload_raw_file` differ only in the message they return). -/
structure FileResult where
  success : Bool
  info : String
deriving Repr, DecidableEq

/-- Shallow embedding of `upload_raw_file`: content and serialised
metadata are pushed in ONE commit, as `filename.txt` and
`filename.meta.json`.  `outcome` is the result of that single
`create_commit` call. -/
def uploadRawFile (outcome : CommitResult) (svc : HuggingFaceService)
    (filename content metaJson : String) (repo : Option String) :
    FileResult × List Event :=
  if svc.token = "" then
    ({ success := false, info := "HuggingFace not configured. Please set HF_TOKEN." }, [])
  else
    let target := pyOr repo svc.raw_repo
    let ev := [Event.commit target
      [(filename ++ ".txt", content), (filename ++ ".meta.json", metaJson)]
      ("Add raw file: " ++ filename)]
    match outcome with
    | CommitResult.ok => ({ success := true, info := "Uploaded " ++ filename ++ " to " ++ target }, ev)
    | CommitResult.httpError _ => ({ success := false, info := "HuggingFace API error" }, ev)
    | CommitResult.otherError => ({ success := false, info := "Upload failed" }, ev)

/-- Shallow embedding of `upload_cleaned_file`: one commit containing
only `filename.txt` — the metadata file is intentionally not pushed to
the cleaned repository. -/
def uploadCleanedFile (outcome : CommitResult) (svc : HuggingFaceService)
    (filename content : String) (repo : Option String) :
    FileResult × List Event :=
  if svc.token = "" then
    ({ success := false, info := "HuggingFace not configured" }, [])
  else
    let target := pyOr repo svc.cleaned_repo
    let ev := [Event.commit target [(filename ++ ".txt", content)]
      ("Add cleaned file: " ++ filename)]
    match outcome with
    | CommitResult.ok => ({ success := true, info := "Uploaded " ++ filename ++ " to " ++ target }, ev)
    | CommitResult.httpError _ => ({ success := false, info := "Upload failed" }, ev)
    | CommitResult.otherError => ({ success := false, info := "Upload failed" }, ev)

/-- One JSON file of a chunked folder in the approved store: the file
name within the folder and the chunk record it holds.  The route
iterates the sorted directory listing restricted to `.json` files, which
is the list given here. -/
structure ChunkFile where
  fileName : String
  data : Chunk
deriving Repr, DecidableEq

/-- Key of the `chunk_file_paths` dict:
`chunk_data.get("chunk_index", chunk_file)` — the integer index when
present, else the file name string. -/
def chunkKey (f : ChunkFile) : Sum Nat String :=
  match f.data.chunk_index with
  | some i => Sum.inl i
  | none => Sum.inr f.fileName

/-- Dict lookup with last-insert-wins semantics over an association list
built in insertion order. -/
def dget (m : List (Sum Nat String × String)) (k : Sum Nat String) : Option String :=
  (m.reverse.find? (fun e => decide (e.1 = k))).map (fun e => e.2)

/-- The collection loop of the chunked-push section: counts the
already-marked records as skipped, collects the unmarked records in
order, and builds the `chunk_file_paths` dict entries in order. -/
def collectUnpushed : List ChunkFile → Nat × List Chunk × List (Sum Nat String × String)
  | [] => (0, [], [])
  | f :: rest =>
    let r := collectUnpushed rest
    if f.data.pushed_to_hf then (r.1 + 1, r.2.1, r.2.2)
    else (r.1, f.data :: r.2.1, (chunkKey f, f.fileName) :: r.2.2)

/-- Overwrite the record held by the file of the given name. -/
def storeWrite (st : List ChunkFile) (name : String) (c : Chunk) : List ChunkFile :=
  st.map (fun f => if f.fileName = name then { f with data := c } else f)

/-- The marking loop of the route: for each chunk that was sent, if its
name is not in the failed set, look its path up in `chunk_file_paths`
and, when the path is truthy and the file exists, write the record back
with the `pushed_to_hf` marker set.  Computing the name
`f-string folder/chunk_\x7bchunk_index:02d\x7d.json` raises a
`TypeError` when `chunk_index` is absent (`None` given to the format
code `02d`), aborting the loop. -/
def markChunks (folder : String) (failedSet : List String)
    (pathMap : List (Sum Nat String × String)) :
    List Chunk → List ChunkFile → List ChunkFile × List Event × Option String
  | [], st => (st, [], none)
  | c :: rest, st =>
    match c.chunk_index with
    | none => (st, [], some "TypeError: unsupported format string passed to NoneType")
    | some i =>
      let keyName := folder ++ "/chunk_" ++ format02d i ++ ".json"
      if keyName ∈ failedSet then markChunks folder failedSet pathMap rest st
      else
        match dget pathMap (Sum.inl i) with
        | none => markChunks folder failedSet pathMap rest st
        | some path =>
          if path ≠ "" ∧ st.any (fun f => f.fileName = path) then
            let c1 : Chunk := { c with pushed_to_hf := true }
            let r := markChunks folder failedSet pathMap rest (storeWrite st path c1)
            (r.1, Event.localWrite path c1 :: r.2.1, r.2.2)
          else markChunks folder failedSet pathMap rest st

/-- Result of the chunked-push section for one folder: the counters the
route accumulates, the folder contents after marker persistence, the
event trace, and an optional escaped exception. -/
structure FolderPush where
  skipped : Nat
  uploaded : Nat
  failed : Nat
  failed_chunks : List String
  store : List ChunkFile
  trace : List Event
  raised : Option String
deriving Repr, DecidableEq

/-- Shallow embedding of the chunked-push section of
`push_to_huggingface` for one approved folder: filter out records
already carrying the `pushed_to_hf` marker (counting them skipped),
upload the rest through `upload_chunks_batch` with the default batch
size 50, accumulate the report counts, and mark the non-failed records
in their JSON files.  (The route reaches this section only after
checking `is_configured`; on a not-configured result dict the `get`
defaults make every count 0 and the failed set empty.) -/
def pushChunkedFolder (env : Nat → CommitResult) (svc : HuggingFaceService)
    (repo folder : String) (files : List ChunkFile) : FolderPush :=
  let col := collectUnpushed files
  if col.2.1.isEmpty then
    { skipped := col.1, uploaded := 0, failed := 0, failed_chunks := [],
      store := files, trace := [], raised := none }
  else
    let run := uploadChunksBatch env svc folder col.2.1 (some repo) 50
    match run.outcome with
    | UploadOutcome.raised m =>
      { skipped := col.1, uploaded := 0, failed := 0, failed_chunks := [],
        store := files, trace := run.trace, raised := some m }
    | UploadOutcome.notConfigured =>
      let mk := markChunks folder [] col.2.2 col.2.1 files
      { skipped := col.1, uploaded := 0, failed := 0, failed_chunks := [],
        store := mk.1, trace := run.trace ++ mk.2.1, raised := mk.2.2 }
    | UploadOutcome.report r =>
      let mk := markChunks folder r.failed_chunks col.2.2 col.2.1 files
      { skipped := col.1, uploaded := r.uploaded_count, failed := r.failed_count,
        failed_chunks := r.failed_chunks,
        store := mk.1, trace := run.trace ++ mk.2.1, raised := mk.2.2 }

/-! Concrete inputs used by the closed theorems below. -/

/-- A configured service (non-empty token). -/
def svcDemo : HuggingFaceService :=
  { token := "t", raw_repo := "org/raw", cleaned_repo := "org/cleaned",
    chunked_repo := "org/chunked" }

/-- Remote that answers every commit with HTTP 429 (rate limit). -/
def env429 : Nat → CommitResult := fun _ => CommitResult.httpError 429

/-- Remote that answers every commit with HTTP 500. -/
def envHttp500 : Nat → CommitResult := fun _ => CommitResult.httpError 500

/-- Remote on which every commit raises a non-HTTP exception. -/
def envErr : Nat → CommitResult := fun _ => CommitResult.otherError

/-- Remote on which every commit succeeds. -/
def envOk : Nat → CommitResult := fun _ => CommitResult.ok

/-- One well-formed chunk. -/
def chunksOne : List Chunk := [{ chunk_index := some 1, pushed_to_hf := false, payload := "a" }]

/-- Two well-formed chunks (a single batch at batch size 50). -/
def chunksTwo : List Chunk :=
  [{ chunk_index := some 1, pushed_to_hf := false, payload := "a" },
   { chunk_index := some 2, pushed_to_hf := false, payload := "b" }]

/-- A chunk with no `chunk_index` field followed by a well-formed one. -/
def chunksNoIdx : List Chunk :=
  [{ chunk_index := none, pushed_to_hf := false, payload := "a" },
   { chunk_index := some 2, pushed_to_hf := false, payload := "b" }]

/-- One chunk with index 7. -/
def chunksSeven : List Chunk := [{ chunk_index := some 7, pushed_to_hf := false, payload := "x" }]

/-- One chunk with index 3. -/
def chunksThree : List Chunk := [{ chunk_index := some 3, pushed_to_hf := false, payload := "z" }]

/-- C1: the claim says uploaded plus failed always equals the number of
input chunks.  It does not: when the final retry of a batch fails with
HTTP 429, the condition `status_code == 429 or attempt < MAX_RETRIES`
still holds, so the code sleeps once more and the retry loop ends
without recording the batch anywhere.  On one chunk with every commit
answered 429, the call returns uploaded_count 0 and failed_chunks empty
(and even success true), dropping the chunk: 0 + 0 is not 1. -/
theorem upload_counts_not_conserved :
    (uploadChunksBatch env429 svcDemo "doc" chunksOne none 50).outcome
      = UploadOutcome.report
        { success := true,
          message := "Uploaded 0 chunks (0 failed) to org/chunked",
          repo := "org/chunked",
          uploaded_count := 0,
          failed_count := 0,
          failed_chunks := [] }
      ∧ chunksOne.length = 1 := by
  constructor
  · decide
  · decide

/-- C2: the claim says a batch whose commit fails after exhausting the
retries puts all of its chunks into failed_chunks.  With every commit
answered HTTP 429, the batch of two chunks is attempted the full three
times (three commit events in the trace) and never succeeds, yet
neither chunk is recorded: uploaded_count 0 and failed_chunks empty. -/
theorem exhausted_batch_not_marked_failed :
    commitCount (uploadChunksBatch env429 svcDemo "doc" chunksTwo none 50).trace = 3
      ∧ (uploadChunksBatch env429 svcDemo "doc" chunksTwo none 50).outcome
        = UploadOutcome.report
          { success := true,
            message := "Uploaded 0 chunks (0 failed) to org/chunked",
            repo := "org/chunked",
            uploaded_count := 0,
            failed_count := 0,
            failed_chunks := [] } := by
  constructor
  · decide
  · decide

/-- C3: the claim says no error raised while processing one batch
aborts the overall call and every batch is attempted.  But recording a
failed batch formats the default value `"?"` (taken when a chunk has no
`chunk_index`) with the format code `02d`, which raises a `ValueError`
inside the except handler.  With batch size 1 and a remote that always
fails, the first batch (whose chunk lacks `chunk_index`) exhausts its
three attempts and then the recording raises: the call aborts with only
three commit calls made and the second batch is never attempted, and no
report dict is returned. -/
theorem failure_recording_aborts_call :
    (uploadChunksBatch envErr svcDemo "doc" chunksNoIdx none 1).outcome
      = UploadOutcome.raised "ValueError: unknown format code d for object of type str"
      ∧ commitCount (uploadChunksBatch envErr svcDemo "doc" chunksNoIdx none 1).trace = 3
      ∧ (chunkList 1 chunksNoIdx).length = 2 := by
  refine ⟨?_, ?_, ?_⟩ <;> decide

/-- C4: the claim says HTTP 429 is distinguished only for the log
message and changes neither retry eligibility nor how the outcome of
the batch is recorded.  Retry eligibility is indeed unchanged (three
commit attempts either way), but the recording differs: with every
commit answered HTTP 500 the single chunk ends up in failed_chunks,
while with HTTP 429 the same chunk is recorded nowhere. -/
theorem rate_limit_changes_outcome_recording :
    commitCount (uploadChunksBatch envHttp500 svcDemo "doc" chunksSeven none 50).trace = 3
      ∧ commitCount (uploadChunksBatch env429 svcDemo "doc" chunksSeven none 50).trace = 3
      ∧ (uploadChunksBatch envHttp500 svcDemo "doc" chunksSeven none 50).outcome
        = UploadOutcome.report
          { success := false,
            message := "Uploaded 0 chunks (1 failed) to org/chunked",
            repo := "org/chunked",
            uploaded_count := 0,
            failed_count := 1,
            failed_chunks := ["doc/chunk_07.json"] }
      ∧ (uploadChunksBatch env429 svcDemo "doc" chunksSeven none 50).outcome
        = UploadOutcome.report
          { success := true,
            message := "Uploaded 0 chunks (0 failed) to org/chunked",
            repo := "org/chunked",
            uploaded_count := 0,
            failed_count := 0,
            failed_chunks := [] } := by
  refine ⟨?_, ?_, ?_, ?_⟩ <;> decide

/-- One chunk with index 4. -/
def chunksFour : List Chunk := [{ chunk_index := some 4, pushed_to_hf := false, payload := "w" }]

/-- The report returned for `chunksFour` on a remote that always
answers HTTP 500. -/
def reportW : UploadResult :=
  { success := false,
    message := "Uploaded 0 chunks (1 failed) to org/chunked",
    repo := "org/chunked",
    uploaded_count := 0,
    failed_count := 1,
    failed_chunks := ["w/chunk_04.json"] }

/-- C10: whenever `upload_chunks_batch` returns its report dict, the
success flag is true exactly when failed_chunks is empty; and success
can be true while uploaded_count is strictly below the number of input
chunks (a batch whose final attempt fails with HTTP 429 increments
neither counter). -/
theorem success_iff_no_failed_chunks :
    (∀ (env : Nat → CommitResult) (svc : HuggingFaceService) (folder : String)
        (chunks : List Chunk) (repo : Option String) (bs : Nat) (r : UploadResult),
      (uploadChunksBatch env svc folder chunks repo bs).outcome = UploadOutcome.report r →
      (r.success = true ↔ r.failed_chunks = []))
    ∧ (∃ r, (uploadChunksBatch env429 svcDemo "grp" chunksThree none 50).outcome
          = UploadOutcome.report r
        ∧ r.success = true ∧ r.uploaded_count < chunksThree.length) := by
  constructor
  · intro env svc folder chunks repo bs r h
    unfold uploadChunksBatch at h
    split at h
    · simp at h
    · split at h
      · simp at h
      · rcases hrb : runBatches env (pyOr repo svc.chunked_repo) folder
            (withStarts bs (chunkList bs chunks))
            { callIdx := 0, uploaded := 0, failed := [], trace := [] } with ⟨s, m⟩
        cases m with
        | none =>
          simp only [hrb, UploadOutcome.report.injEq] at h
          subst h
          simp [List.isEmpty_iff]
        | some msg => simp [hrb] at h
  · refine ⟨{ success := true,
              message := "Uploaded 0 chunks (0 failed) to org/chunked",
              repo := "org/chunked",
              uploaded_count := 0,
              failed_count := 0,
              failed_chunks := [] }, ?_, ?_, ?_⟩ <;> decide

/-- Witness for C10: the equivalence instantiated at a concrete failing
run, whose report has success false and failed_chunks non-empty. -/
theorem success_iff_no_failed_chunks_witness :
    (uploadChunksBatch envHttp500 svcDemo "w" chunksFour none 50).outcome
        = UploadOutcome.report reportW
      ∧ (reportW.success = true ↔ reportW.failed_chunks = []) :=
  ⟨by decide,
   success_iff_no_failed_chunks.1 envHttp500 svcDemo "w" chunksFour none 50 reportW (by decide)⟩

lemma commitCount_append (t1 t2 : List Event) :
    commitCount (t1 ++ t2) = commitCount t1 + commitCount t2 := by
  simp [commitCount, List.filter_append]

lemma sleepsOf_append (t1 t2 : List Event) :
    sleepsOf (t1 ++ t2) = sleepsOf t1 ++ sleepsOf t2 := by
  induction t1 with
  | nil => simp [sleepsOf]
  | cons e r ih => cases e <;> simp [sleepsOf, ih]

/-- Shape of one batch-retry loop run: the trace grows by a block `t`
containing one commit call per attempt (at least one, at most one per
remaining attempt number) interleaved with back-off sleeps of `2 ^ a`
for a prefix `l2` of the attempt numbers, and nothing else. -/
lemma tryAttempts_shape (env : Nat → CommitResult) (target msg : String)
    (ops : List (String × String)) (failRes : Except String (List String))
    (batchLen : Nat) :
    ∀ (l : List Nat) (s : LoopState), ∃ (t : List Event) (l2 : List Nat),
      ((tryAttempts env target msg ops failRes batchLen l s).1).trace = s.trace ++ t
      ∧ commitCount t ≤ l.length
      ∧ (l ≠ [] → 1 ≤ commitCount t)
      ∧ sleepsOf t = l2.map (fun a => 2 ^ a)
      ∧ l2 <+: l
      ∧ (∀ e ∈ t, e = Event.commit target ops msg ∨ ∃ w, e = Event.sleep w) := by
  intro l
  induction l with
  | nil =>
    intro s
    refine ⟨[], [], by simp [tryAttempts], by simp [commitCount], by simp,
      by simp [sleepsOf], List.nil_prefix, by simp⟩
  | cons a rest ih =>
    intro s
    rcases h0 : env s.callIdx with _ | code | _
    · refine ⟨[Event.commit target ops msg], [], ?_, ?_, ?_, ?_, List.nil_prefix, ?_⟩
      · simp [tryAttempts, h0]
      · simp [commitCount]
      · intro _; simp [commitCount]
      · simp [sleepsOf]
      · intro e he; simp at he; subst he; exact Or.inl rfl
    · by_cases hc : (code == 429 || !rest.isEmpty) = true
      · obtain ⟨t1, l2, htr, hcc, _, hsl, hpre, hev⟩ :=
          ih { s with
               callIdx := s.callIdx + 1,
               trace := (s.trace ++ [Event.commit target ops msg]) ++ [Event.sleep (2 ^ a)] }
        refine ⟨Event.commit target ops msg :: Event.sleep (2 ^ a) :: t1, a :: l2, ?_, ?_, ?_, ?_, ?_, ?_⟩
        · simp only [tryAttempts, h0, hc, if_true]
          rw [htr]
          simp
        · simpa [commitCount] using Nat.succ_le_succ hcc
        · intro _; simp [commitCount]
        · simp [sleepsOf, hsl]
        · rcases hpre with ⟨u, hu⟩
          exact ⟨u, by simp [hu]⟩
        · intro e he
          simp only [List.mem_cons] at he
          rcases he with he | he | he
          · exact Or.inl he
          · exact Or.inr ⟨2 ^ a, he⟩
          · exact hev e he
      · have hc0 : (code == 429 || !rest.isEmpty) = false := by
          cases h : (code == 429 || !rest.isEmpty) with
          | true => exact absurd h hc
          | false => rfl
        refine ⟨[Event.commit target ops msg], [], ?_, ?_, ?_, ?_, List.nil_prefix, ?_⟩
        · cases failRes with
          | ok names => simp [tryAttempts, h0, hc0]
          | error m => simp [tryAttempts, h0, hc0]
        · simp [commitCount]
        · intro _; simp [commitCount]
        · simp [sleepsOf]
        · intro e he; simp at he; subst he; exact Or.inl rfl
    · by_cases hc : (!rest.isEmpty) = true
      · obtain ⟨t1, l2, htr, hcc, _, hsl, hpre, hev⟩ :=
          ih { s with
               callIdx := s.callIdx + 1,
               trace := (s.trace ++ [Event.commit target ops msg]) ++ [Event.sleep (2 ^ a)] }
        refine ⟨Event.commit target ops msg :: Event.sleep (2 ^ a) :: t1, a :: l2, ?_, ?_, ?_, ?_, ?_, ?_⟩
        · simp only [tryAttempts, h0, hc, if_true]
          rw [htr]
          simp
        · simpa [commitCount] using Nat.succ_le_succ hcc
        · intro _; simp [commitCount]
        · simp [sleepsOf, hsl]
        · rcases hpre with ⟨u, hu⟩
          exact ⟨u, by simp [hu]⟩
        · intro e he
          simp only [List.mem_cons] at he
          rcases he with he | he | he
          · exact Or.inl he
          · exact Or.inr ⟨2 ^ a, he⟩
          · exact hev e he
      · have hc0 : (!rest.isEmpty) = false := by
          cases h : (!rest.isEmpty) with
          | true => exact absurd h hc
          | false => rfl
        refine ⟨[Event.commit target ops msg], [], ?_, ?_, ?_, ?_, List.nil_prefix, ?_⟩
        · cases failRes with
          | ok names => simp [tryAttempts, h0, hc0]
          | error m => simp [tryAttempts, h0, hc0]
        · simp [commitCount]
        · intro _; simp [commitCount]
        · simp [sleepsOf]
        · intro e he; simp at he; subst he; exact Or.inl rfl

/-- C5: for one batch, every back-off wait before a retry is
`2 ^ attempt` with the attempt number starting at 1 — so the sleeps of
a batch are an initial segment of `[2, 4, 8]`, strictly increasing —
and the batch is committed at least once and at most `MAX_RETRIES = 3`
times. -/
theorem retry_backoff_growth :
    ∀ (env : Nat → CommitResult) (target msg : String) (ops : List (String × String))
      (failRes : Except String (List String)) (batchLen : Nat) (s : LoopState),
    ∃ t : List Event,
      ((tryAttempts env target msg ops failRes batchLen attemptNumbers s).1).trace = s.trace ++ t
      ∧ 1 ≤ commitCount t
      ∧ commitCount t ≤ MAX_RETRIES
      ∧ ∃ j, j ≤ MAX_RETRIES ∧ sleepsOf t = List.take j [2, 4, 8]
        ∧ List.Chain' (· < ·) (sleepsOf t) := by
  intro env target msg ops failRes batchLen s
  obtain ⟨t, l2, htr, hcc, hne, hsl, hpre, _⟩ :=
    tryAttempts_shape env target msg ops failRes batchLen attemptNumbers s
  refine ⟨t, htr, hne (by simp [attemptNumbers]), by simpa [attemptNumbers, MAX_RETRIES] using hcc,
    l2.length, ?_, ?_, ?_⟩
  · have := hpre.length_le
    simpa [attemptNumbers, MAX_RETRIES] using this
  · have h2 : l2 = List.take l2.length attemptNumbers := List.prefix_iff_eq_take.mp hpre
    rw [hsl, h2, List.map_take]
    simp [attemptNumbers]
  · have hj : l2.length ≤ 3 := by
      have := hpre.length_le
      simpa [attemptNumbers] using this
    have h2 : l2 = List.take l2.length attemptNumbers := List.prefix_iff_eq_take.mp hpre
    rw [hsl, h2, List.map_take]
    have hj4 : l2.length = 0 ∨ l2.length = 1 ∨ l2.length = 2 ∨ l2.length = 3 := by omega
    rcases hj4 with h | h | h | h <;> rw [h] <;> simp [attemptNumbers]

lemma chunkListAux_join {α : Type} (n : Nat) :
    ∀ (fuel : Nat) (l : List α), l.length ≤ fuel → (chunkListAux n fuel l).flatten = l := by
  intro fuel
  induction fuel with
  | zero =>
    intro l hl
    cases l with
    | nil => simp [chunkListAux]
    | cons x xs => simp at hl
  | succ fuel ih =>
    intro l hl
    cases l with
    | nil => simp [chunkListAux]
    | cons x xs =>
      simp only [chunkListAux, List.flatten_cons]
      rw [ih (List.drop (n - 1) xs) (by simp only [List.length_drop]; simp at hl; omega)]
      simp [List.take_append_drop]

lemma chunkListAux_mem_length {α : Type} (n : Nat) (hn : 1 ≤ n) :
    ∀ (fuel : Nat) (l : List α) (b : List α), b ∈ chunkListAux n fuel l → b.length ≤ n := by
  intro fuel
  induction fuel with
  | zero =>
    intro l b hb
    cases l with
    | nil => simp [chunkListAux] at hb
    | cons x xs => simp [chunkListAux] at hb
  | succ fuel ih =>
    intro l b hb
    cases l with
    | nil => simp [chunkListAux] at hb
    | cons x xs =>
      simp only [chunkListAux, List.mem_cons] at hb
      rcases hb with rfl | hb
      · simp only [List.length_cons, List.length_take]
        omega
      · exact ih _ _ hb

lemma chunkListAux_length {α : Type} (n : Nat) (hn : 1 ≤ n) :
    ∀ (fuel : Nat) (l : List α), l.length ≤ fuel →
      (chunkListAux n fuel l).length = (l.length + n - 1) / n := by
  intro fuel
  induction fuel with
  | zero =>
    intro l hl
    cases l with
    | nil =>
      simp only [chunkListAux, List.length_nil]
      rw [Nat.div_eq_of_lt (by omega)]
    | cons x xs => simp at hl
  | succ fuel ih =>
    intro l hl
    cases l with
    | nil =>
      simp only [chunkListAux, List.length_nil]
      rw [Nat.div_eq_of_lt (by omega)]
    | cons x xs =>
      simp only [chunkListAux, List.length_cons]
      rw [ih (List.drop (n - 1) xs) (by simp only [List.length_drop]; simp at hl; omega)]
      simp only [List.length_drop]
      have e3 : xs.length + 1 + n - 1 = xs.length + n := by omega
      rw [e3, Nat.add_div_right _ (by omega : 0 < n)]
      rcases Nat.lt_or_ge xs.length (n - 1) with h | h
      · have e1 : xs.length - (n - 1) + n - 1 = n - 1 := by omega
        rw [e1, Nat.div_eq_of_lt (by omega), Nat.div_eq_of_lt (by omega)]
      · have e1 : xs.length - (n - 1) + n - 1 = xs.length := by omega
        rw [e1]

/-- On a remote that accepts every commit, the batch loop performs
exactly one commit per batch, uploads every batch in full, records no
failure and raises nothing. -/
lemma runBatches_envOk (target folder : String) :
    ∀ (bl : List (Nat × List Chunk)) (s : LoopState),
      runBatches envOk target folder bl s =
        ({ callIdx := s.callIdx + bl.length,
           uploaded := s.uploaded + (bl.map (fun p => p.2.length)).sum,
           failed := s.failed,
           trace := s.trace ++ bl.map (fun p =>
             Event.commit target (batchOps folder p.2) (commitMsg folder p.1 p.2.length)) }, none) := by
  intro bl
  induction bl with
  | nil => intro s; simp [runBatches]
  | cons p rest ih =>
    intro s
    rcases p with ⟨bstart, batch⟩
    have h1 : tryAttempts envOk target (commitMsg folder bstart batch.length)
        (batchOps folder batch) (batchFailNames folder batch) batch.length attemptNumbers s
        = ({ s with
             callIdx := s.callIdx + 1,
             uploaded := s.uploaded + batch.length,
             trace := s.trace ++ [Event.commit target (batchOps folder batch)
               (commitMsg folder bstart batch.length)] }, none) := by
      simp [tryAttempts, attemptNumbers, envOk]
    simp only [runBatches, h1, ih]
    simp [Nat.add_assoc, Nat.add_comm, Nat.add_left_comm]

lemma commitCount_commits (target folder : String) (bl : List (Nat × List Chunk)) :
    commitCount (bl.map (fun p =>
      Event.commit target (batchOps folder p.2) (commitMsg folder p.1 p.2.length))) = bl.length := by
  induction bl with
  | nil => simp [commitCount]
  | cons p rest ih =>
    simp only [List.map_cons]
    have : commitCount (Event.commit target (batchOps folder p.2)
        (commitMsg folder p.1 p.2.length) :: rest.map (fun p =>
          Event.commit target (batchOps folder p.2) (commitMsg folder p.1 p.2.length)))
        = 1 + commitCount (rest.map (fun p =>
          Event.commit target (batchOps folder p.2) (commitMsg folder p.1 p.2.length))) := by
      simp [commitCount, Nat.add_comm]
    rw [this, ih]
    simp [Nat.add_comm]

lemma withStarts_snd (n : Nat) (bl : List (List Chunk)) :
    (withStarts n bl).map Prod.snd = bl := by
  apply List.map_snd_zip
  simp

lemma withStarts_length (n : Nat) (bl : List (List Chunk)) :
    (withStarts n bl).length = bl.length := by
  simp [withStarts]

/-- C6: `upload_chunks_batch` partitions its input into consecutive
order-preserving batches of at most `batch_size` chunks, and on a remote
that accepts every commit it performs exactly
`ceil(m / batch_size) = (m + batch_size - 1) / batch_size` commit calls
and reports every chunk uploaded with no failures. -/
theorem happy_path_batching :
    ∀ (svc : HuggingFaceService) (folder : String) (chunks : List Chunk)
      (repo : Option String) (bs : Nat),
      svc.token ≠ "" → 0 < bs →
      (chunkList bs chunks).flatten = chunks
      ∧ (∀ b ∈ chunkList bs chunks, b.length ≤ bs)
      ∧ commitCount (uploadChunksBatch envOk svc folder chunks repo bs).trace
          = (chunks.length + bs - 1) / bs
      ∧ ∃ r, (uploadChunksBatch envOk svc folder chunks repo bs).outcome = UploadOutcome.report r
          ∧ r.uploaded_count = chunks.length ∧ r.failed_chunks = [] ∧ r.success = true := by
  intro svc folder chunks repo bs htok hbs
  have hjoin : (chunkList bs chunks).flatten = chunks :=
    chunkListAux_join bs chunks.length chunks le_rfl
  have hsum : ((chunkList bs chunks).map List.length).sum = chunks.length := by
    rw [← List.length_flatten, hjoin]
  have hrun : uploadChunksBatch envOk svc folder chunks repo bs =
      { trace := (withStarts bs (chunkList bs chunks)).map (fun p =>
          Event.commit (pyOr repo svc.chunked_repo) (batchOps folder p.2)
            (commitMsg folder p.1 p.2.length)),
        outcome := UploadOutcome.report
          { success := true,
            message := "Uploaded " ++ toString chunks.length ++ " chunks (" ++ toString (0 : Nat) ++ " failed) to "
              ++ pyOr repo svc.chunked_repo,
            repo := pyOr repo svc.chunked_repo,
            uploaded_count := chunks.length,
            failed_count := 0,
            failed_chunks := [] } } := by
    have hsum2 : ((withStarts bs (chunkList bs chunks)).map (fun p => p.2.length)).sum
        = chunks.length := by
      have : (withStarts bs (chunkList bs chunks)).map (fun p => p.2.length)
          = ((withStarts bs (chunkList bs chunks)).map Prod.snd).map List.length := by
        simp [List.map_map, Function.comp]
      rw [this, withStarts_snd, hsum]
    simp only [uploadChunksBatch, htok, if_false]
    rw [if_neg (by omega), runBatches_envOk]
    simp [hsum2]
  refine ⟨hjoin, fun b hb => chunkListAux_mem_length bs hbs chunks.length chunks b hb, ?_, ?_⟩
  · rw [hrun]
    simp only [commitCount_commits, withStarts_length]
    exact chunkListAux_length bs hbs chunks.length chunks le_rfl
  · refine ⟨_, by rw [hrun], rfl, rfl, rfl⟩

/-- The 223-chunk scenario of the spec. -/
def chunks223 : List Chunk :=
  (List.range 223).map
    (fun i => { chunk_index := some (i + 1), pushed_to_hf := false, payload := "" })

/-- Witness for C6: 223 chunks at batch size 50 give 5 commit calls
(4 times 50 plus 1 times 23), uploaded_count 223, no failures. -/
theorem happy_path_batching_witness :
    svcDemo.token ≠ "" ∧ 0 < 50 ∧ chunks223.length = 223 ∧ (223 + 50 - 1) / 50 = 5
      ∧ ((chunkList 50 chunks223).flatten = chunks223
        ∧ (∀ b ∈ chunkList 50 chunks223, b.length ≤ 50)
        ∧ commitCount (uploadChunksBatch envOk svcDemo "doc" chunks223 none 50).trace
            = (chunks223.length + 50 - 1) / 50
        ∧ ∃ r, (uploadChunksBatch envOk svcDemo "doc" chunks223 none 50).outcome
              = UploadOutcome.report r
            ∧ r.uploaded_count = chunks223.length ∧ r.failed_chunks = []
            ∧ r.success = true) :=
  ⟨by decide, by decide, by decide, by decide,
   happy_path_batching svcDemo "doc" chunks223 none 50 (by decide) (by decide)⟩

lemma chunkList_mem {α : Type} (n : Nat) (l : List α) (b : List α) (hb : b ∈ chunkList n l) :
    ∀ c ∈ b, c ∈ l := by
  intro c hc
  have hj : (chunkList n l).flatten = l := chunkListAux_join n l.length l le_rfl
  rw [← hj]
  exact List.mem_flatten.mpr ⟨b, hb, hc⟩

/-- Shape of the outer batch loop for any remote behaviour: the trace
grows by commit calls of the batches of the list (each with its own
operations and message) and back-off sleeps, and by nothing else. -/
lemma runBatches_shape (env : Nat → CommitResult) (target folder : String) :
    ∀ (bl : List (Nat × List Chunk)) (s : LoopState), ∃ t,
      ((runBatches env target folder bl s).1).trace = s.trace ++ t
      ∧ ∀ e ∈ t, (∃ p, p ∈ bl ∧ e = Event.commit target (batchOps folder p.2)
          (commitMsg folder p.1 p.2.length)) ∨ ∃ w, e = Event.sleep w := by
  intro bl
  induction bl with
  | nil => intro s; exact ⟨[], by simp [runBatches], by simp⟩
  | cons p rest ih =>
    intro s
    rcases p with ⟨bstart, batch⟩
    obtain ⟨t0, l2, htr0, _, _, _, _, hev0⟩ :=
      tryAttempts_shape env target (commitMsg folder bstart batch.length)
        (batchOps folder batch) (batchFailNames folder batch) batch.length attemptNumbers s
    rcases hta : tryAttempts env target (commitMsg folder bstart batch.length)
        (batchOps folder batch) (batchFailNames folder batch) batch.length attemptNumbers s
      with ⟨s1, m⟩
    rw [hta] at htr0
    cases m with
    | some msg =>
      refine ⟨t0, ?_, ?_⟩
      · simp only [runBatches, hta]
        exact htr0
      · intro e he
        rcases hev0 e he with h | h
        · exact Or.inl ⟨(bstart, batch), List.mem_cons_self _ _, h⟩
        · exact Or.inr h
    | none =>
      obtain ⟨t1, htr1, hev1⟩ := ih s1
      refine ⟨t0 ++ t1, ?_, ?_⟩
      · simp only [runBatches, hta]
        rw [htr1, htr0, List.append_assoc]
      · intro e he
        rcases List.mem_append.mp he with h | h
        · rcases hev0 e h with h2 | h2
          · exact Or.inl ⟨(bstart, batch), List.mem_cons_self _ _, h2⟩
          · exact Or.inr h2
        · rcases hev1 e h with ⟨q, hq, h2⟩ | h2
          · exact Or.inl ⟨q, List.mem_cons_of_mem _ hq, h2⟩
          · exact Or.inr h2

/-- Every operation of every commit event of an `upload_chunks_batch`
trace is the path/content pair of one of the input chunks. -/
lemma uploadChunksBatch_ops (env : Nat → CommitResult) (svc : HuggingFaceService)
    (folder : String) (chunks : List Chunk) (repo : Option String) (bs : Nat) :
    ∀ e ∈ (uploadChunksBatch env svc folder chunks repo bs).trace,
      ∀ pc ∈ opsOf e, ∃ c, c ∈ chunks ∧ pc.1 = chunkOpPath folder c
        ∧ pc.2 = encodeChunk c := by
  intro e he pc hpc
  by_cases htok : svc.token = ""
  · simp [uploadChunksBatch, htok] at he
  · by_cases hbs : bs = 0
    · simp [uploadChunksBatch, htok, hbs] at he
    · obtain ⟨t, htr, hev⟩ := runBatches_shape env (pyOr repo svc.chunked_repo) folder
        (withStarts bs (chunkList bs chunks)) ⟨0, 0, [], []⟩
      rcases hrb : runBatches env (pyOr repo svc.chunked_repo) folder
          (withStarts bs (chunkList bs chunks)) ⟨0, 0, [], []⟩ with ⟨s, m⟩
      rw [hrb] at htr
      simp only [List.nil_append] at htr
      have he2 : e ∈ t := by
        cases m with
        | none =>
          simp only [uploadChunksBatch, htok, hbs, if_false, hrb] at he
          rw [← htr]
          simpa using he
        | some msg =>
          simp only [uploadChunksBatch, htok, hbs, if_false, hrb] at he
          rw [← htr]
          simpa using he
      rcases hev e he2 with ⟨q, hq, h2⟩ | ⟨w, h2⟩
      · subst h2
        simp only [opsOf, batchOps] at hpc
        rcases List.mem_map.mp hpc with ⟨c, hc, hcpc⟩
        rcases q with ⟨qs, qb⟩
        have hqb : qb ∈ chunkList bs chunks := (List.of_mem_zip hq).2
        refine ⟨c, chunkList_mem bs chunks qb hqb c hc, ?_, ?_⟩
        · rw [← hcpc]
        · rw [← hcpc]
      · subst h2
        simp [opsOf] at hpc

/-- Every event of an `upload_chunks_batch` trace is a commit call or a
back-off sleep; the service never writes locally. -/
lemma uploadChunksBatch_networkOnly (env : Nat → CommitResult) (svc : HuggingFaceService)
    (folder : String) (chunks : List Chunk) (repo : Option String) (bs : Nat) :
    ∀ e ∈ (uploadChunksBatch env svc folder chunks repo bs).trace, networkOnly e := by
  intro e he
  by_cases htok : svc.token = ""
  · simp [uploadChunksBatch, htok] at he
  · by_cases hbs : bs = 0
    · simp [uploadChunksBatch, htok, hbs] at he
    · obtain ⟨t, htr, hev⟩ := runBatches_shape env (pyOr repo svc.chunked_repo) folder
        (withStarts bs (chunkList bs chunks)) ⟨0, 0, [], []⟩
      rcases hrb : runBatches env (pyOr repo svc.chunked_repo) folder
          (withStarts bs (chunkList bs chunks)) ⟨0, 0, [], []⟩ with ⟨s, m⟩
      rw [hrb] at htr
      simp only [List.nil_append] at htr
      have he2 : e ∈ t := by
        cases m with
        | none =>
          simp only [uploadChunksBatch, htok, hbs, if_false, hrb] at he
          rw [← htr]
          simpa using he
        | some msg =>
          simp only [uploadChunksBatch, htok, hbs, if_false, hrb] at he
          rw [← htr]
          simpa using he
      rcases hev e he2 with ⟨q, _, h2⟩ | ⟨w, h2⟩
      · exact Or.inl ⟨_, _, _, h2⟩
      · exact Or.inr ⟨w, h2⟩

/-- Every event emitted by the marking loop is a local write of a
record carrying the `pushed_to_hf` marker. -/
lemma markChunks_events (folder : String) (fs : List String)
    (pm : List (Sum Nat String × String)) :
    ∀ (cs : List Chunk) (st : List ChunkFile),
      ∀ e ∈ (markChunks folder fs pm cs st).2.1,
        ∃ p c, e = Event.localWrite p c ∧ c.pushed_to_hf = true := by
  intro cs
  induction cs with
  | nil => intro st e he; simp [markChunks] at he
  | cons c rest ih =>
    intro st e he
    rcases hci : c.chunk_index with _ | i
    · simp [markChunks, hci] at he
    · simp only [markChunks, hci] at he
      split at he
      · exact ih st e he
      · split at he
        · exact ih st e he
        · split at he
          · simp only [List.mem_cons] at he
            rcases he with rfl | he
            · exact ⟨_, _, rfl, rfl⟩
            · exact ih _ e he
          · exact ih st e he

/-- The skipped counter of the collection loop counts exactly the files
whose record already carries the marker. -/
lemma collect_skipped :
    ∀ (files : List ChunkFile),
      (collectUnpushed files).1
        = (files.filter (fun f => f.data.pushed_to_hf)).length := by
  intro files
  induction files with
  | nil => simp [collectUnpushed]
  | cons f rest ih =>
    rcases hm : f.data.pushed_to_hf with _ | _
    · simp [collectUnpushed, hm, ih]
    · simp [collectUnpushed, hm, ih]

/-- Every chunk collected for upload comes from a file whose record does
not carry the marker. -/
lemma collect_mem :
    ∀ (files : List ChunkFile) (c : Chunk), c ∈ (collectUnpushed files).2.1 →
      ∃ f, f ∈ files ∧ f.data.pushed_to_hf = false ∧ f.data = c := by
  intro files
  induction files with
  | nil => intro c hc; simp [collectUnpushed] at hc
  | cons f rest ih =>
    intro c hc
    rcases hm : f.data.pushed_to_hf with _ | _
    · simp only [collectUnpushed, hm, if_false] at hc
      rcases List.mem_cons.mp hc with rfl | hc
      · exact ⟨f, List.mem_cons_self _ _, hm, rfl⟩
      · rcases ih c hc with ⟨g, hg, hg2, hg3⟩
        exact ⟨g, List.mem_cons_of_mem _ hg, hg2, hg3⟩
    · simp only [collectUnpushed, hm, if_true] at hc
      rcases ih c hc with ⟨g, hg, hg2, hg3⟩
      exact ⟨g, List.mem_cons_of_mem _ hg, hg2, hg3⟩

/-- C8: remote path layout.  A raw file is pushed as one commit holding
`filename.txt` and `filename.meta.json`; a cleaned file as one commit
holding only `filename.txt`; and every operation of every chunked
commit writes `folder/chunk_NN.json` with the zero-padded (`02d`)
`chunk_index` of one of the input chunks (default 1 when absent). -/
theorem remote_path_layout :
    (∀ (o : CommitResult) (svc : HuggingFaceService) (fn content metaJson : String)
        (repo : Option String), svc.token ≠ "" →
      (uploadRawFile o svc fn content metaJson repo).2
        = [Event.commit (pyOr repo svc.raw_repo)
            [(fn ++ ".txt", content), (fn ++ ".meta.json", metaJson)]
            ("Add raw file: " ++ fn)])
    ∧ (∀ (o : CommitResult) (svc : HuggingFaceService) (fn content : String)
        (repo : Option String), svc.token ≠ "" →
      (uploadCleanedFile o svc fn content repo).2
        = [Event.commit (pyOr repo svc.cleaned_repo)
            [(fn ++ ".txt", content)]
            ("Add cleaned file: " ++ fn)])
    ∧ (∀ (env : Nat → CommitResult) (svc : HuggingFaceService) (folder : String)
        (chunks : List Chunk) (repo : Option String) (bs : Nat) (e : Event),
      e ∈ (uploadChunksBatch env svc folder chunks repo bs).trace →
      ∀ pc ∈ opsOf e, ∃ c, c ∈ chunks
        ∧ pc.1 = folder ++ "/chunk_" ++ format02d (c.chunk_index.getD 1) ++ ".json"
        ∧ pc.2 = encodeChunk c) := by
  refine ⟨?_, ?_, ?_⟩
  · intro o svc fn content metaJson repo htok
    cases o <;> simp [uploadRawFile, htok]
  · intro o svc fn content repo htok
    cases o <;> simp [uploadCleanedFile, htok]
  · intro env svc folder chunks repo bs e he pc hpc
    obtain ⟨c, hc, h1, h2⟩ := uploadChunksBatch_ops env svc folder chunks repo bs e he pc hpc
    rw [chunkOpPath] at h1
    exact ⟨c, hc, h1, h2⟩

/-- Witness for C8 at concrete inputs. -/
theorem remote_path_layout_witness :
    ((uploadRawFile CommitResult.ok svcDemo "f" "body" "meta" none).2
        = [Event.commit (pyOr none svcDemo.raw_repo)
            [("f" ++ ".txt", "body"), ("f" ++ ".meta.json", "meta")]
            ("Add raw file: " ++ "f")])
      ∧ ((uploadCleanedFile CommitResult.ok svcDemo "f" "body" none).2
        = [Event.commit (pyOr none svcDemo.cleaned_repo)
            [("f" ++ ".txt", "body")]
            ("Add cleaned file: " ++ "f")])
      ∧ (∃ c, c ∈ chunksOne
          ∧ (("doc/chunk_01.json", "json(1,unmarked,a)") : String × String).1
              = "doc" ++ "/chunk_" ++ format02d (c.chunk_index.getD 1) ++ ".json"
          ∧ (("doc/chunk_01.json", "json(1,unmarked,a)") : String × String).2
              = encodeChunk c) :=
  ⟨remote_path_layout.1 CommitResult.ok svcDemo "f" "body" "meta" none (by decide),
   remote_path_layout.2.1 CommitResult.ok svcDemo "f" "body" none (by decide),
   remote_path_layout.2.2 envOk svcDemo "doc" chunksOne none 50
     (Event.commit "org/chunked" [("doc/chunk_01.json", "json(1,unmarked,a)")]
       "Add chunks 1-1 for doc")
     (by decide)
     ("doc/chunk_01.json", "json(1,unmarked,a)")
     (by decide)⟩

/-- C9: the only effects of `upload_chunks_batch` are remote commit
calls and back-off sleeps — it performs no local write and leaves the
chunk records untouched; every local write of the chunked-push route is
the marker persistence of the caller, writing back a record with
`pushed_to_hf` set. -/
theorem effects_frame :
    (∀ (env : Nat → CommitResult) (svc : HuggingFaceService) (folder : String)
        (chunks : List Chunk) (repo : Option String) (bs : Nat),
      ∀ e ∈ (uploadChunksBatch env svc folder chunks repo bs).trace, networkOnly e)
    ∧ (∀ (env : Nat → CommitResult) (svc : HuggingFaceService) (repo folder : String)
        (files : List ChunkFile),
      ∀ e ∈ (pushChunkedFolder env svc repo folder files).trace,
        networkOnly e ∨ ∃ p c, e = Event.localWrite p c ∧ c.pushed_to_hf = true) := by
  constructor
  · exact uploadChunksBatch_networkOnly
  · intro env svc repo folder files e he
    by_cases hemp : (collectUnpushed files).2.1.isEmpty = true
    · simp [pushChunkedFolder, hemp] at he
    · have hemp2 : (collectUnpushed files).2.1.isEmpty = false := by
        cases h : (collectUnpushed files).2.1.isEmpty with
        | true => exact absurd h hemp
        | false => rfl
      rcases hout : (uploadChunksBatch env svc folder (collectUnpushed files).2.1
          (some repo) 50).outcome with _ | r | m
      · simp only [pushChunkedFolder, hemp2, Bool.false_eq_true, if_false, hout] at he
        rcases List.mem_append.mp he with h | h
        · exact Or.inl (uploadChunksBatch_networkOnly env svc folder
            (collectUnpushed files).2.1 (some repo) 50 e h)
        · exact Or.inr (markChunks_events folder [] (collectUnpushed files).2.2
            (collectUnpushed files).2.1 files e h)
      · simp only [pushChunkedFolder, hemp2, Bool.false_eq_true, if_false, hout] at he
        rcases List.mem_append.mp he with h | h
        · exact Or.inl (uploadChunksBatch_networkOnly env svc folder
            (collectUnpushed files).2.1 (some repo) 50 e h)
        · exact Or.inr (markChunks_events folder r.failed_chunks (collectUnpushed files).2.2
            (collectUnpushed files).2.1 files e h)
      · simp only [pushChunkedFolder, hemp2, Bool.false_eq_true, if_false, hout] at he
        exact Or.inl (uploadChunksBatch_networkOnly env svc folder
          (collectUnpushed files).2.1 (some repo) 50 e he)

/-- A folder with one already-marked file and one unmarked file. -/
def demoFiles : List ChunkFile :=
  [{ fileName := "chunk_01.json",
     data := { chunk_index := some 1, pushed_to_hf := true, payload := "p" } },
   { fileName := "chunk_02.json",
     data := { chunk_index := some 2, pushed_to_hf := false, payload := "q" } }]

/-- Witness for C9: a commit event of a concrete service run is
network-only, and the one local write of a concrete route run persists
a marked record. -/
theorem effects_frame_witness :
    networkOnly (Event.commit "org/chunked" [("doc/chunk_01.json", "json(1,unmarked,a)")]
      "Add chunks 1-1 for doc")
    ∧ (networkOnly (Event.localWrite "chunk_02.json"
          { chunk_index := some 2, pushed_to_hf := true, payload := "q" })
        ∨ ∃ p c, Event.localWrite "chunk_02.json"
              { chunk_index := some 2, pushed_to_hf := true, payload := "q" }
            = Event.localWrite p c ∧ c.pushed_to_hf = true) :=
  ⟨effects_frame.1 envOk svcDemo "doc" chunksOne none 50 _ (by decide),
   effects_frame.2 envOk svcDemo "r" "doc" demoFiles _ (by decide)⟩

/-- C7: in the chunked-push route, every record already carrying the
`pushed_to_hf` marker is excluded before batching: it is counted
exactly in `skipped`, it never enters the upload input, no commit
operation carries its content, and the uploaded/failed counters come
solely from the report on the unmarked records — so a re-invocation
after successes were marked re-uploads none of them. -/
theorem marked_chunks_skipped :
    ∀ (env : Nat → CommitResult) (svc : HuggingFaceService) (repo folder : String)
      (files : List ChunkFile),
      (pushChunkedFolder env svc repo folder files).skipped
          = (files.filter (fun f => f.data.pushed_to_hf)).length
      ∧ (∀ c : Chunk, c.pushed_to_hf = true → c ∉ (collectUnpushed files).2.1)
      ∧ (∀ e ∈ (pushChunkedFolder env svc repo folder files).trace,
          ∀ pc ∈ opsOf e, ∃ f, f ∈ files ∧ f.data.pushed_to_hf = false
            ∧ pc.1 = chunkOpPath folder f.data ∧ pc.2 = encodeChunk f.data)
      ∧ (∀ r : UploadResult, (collectUnpushed files).2.1 ≠ [] →
          (uploadChunksBatch env svc folder (collectUnpushed files).2.1 (some repo) 50).outcome
              = UploadOutcome.report r →
          (pushChunkedFolder env svc repo folder files).uploaded = r.uploaded_count
            ∧ (pushChunkedFolder env svc repo folder files).failed = r.failed_count
            ∧ (pushChunkedFolder env svc repo folder files).failed_chunks = r.failed_chunks) := by
  intro env svc repo folder files
  refine ⟨?_, ?_, ?_, ?_⟩
  · by_cases hemp : (collectUnpushed files).2.1.isEmpty = true
    · simp only [pushChunkedFolder, hemp, if_true]
      exact collect_skipped files
    · have hemp2 : (collectUnpushed files).2.1.isEmpty = false := by
        cases h : (collectUnpushed files).2.1.isEmpty with
        | true => exact absurd h hemp
        | false => rfl
      rcases hout : (uploadChunksBatch env svc folder (collectUnpushed files).2.1
          (some repo) 50).outcome with _ | r | m <;>
        simp only [pushChunkedFolder, hemp2, Bool.false_eq_true, if_false, hout] <;>
        exact collect_skipped files
  · intro c hcm hmem
    obtain ⟨f, _, hf2, hf3⟩ := collect_mem files c hmem
    rw [hf3] at hf2
    rw [hcm] at hf2
    exact Bool.true_eq_false.mp hf2
  · intro e he pc hpc
    by_cases hemp : (collectUnpushed files).2.1.isEmpty = true
    · simp [pushChunkedFolder, hemp] at he
    · have hemp2 : (collectUnpushed files).2.1.isEmpty = false := by
        cases h : (collectUnpushed files).2.1.isEmpty with
        | true => exact absurd h hemp
        | false => rfl
      rcases hout : (uploadChunksBatch env svc folder (collectUnpushed files).2.1
          (some repo) 50).outcome with _ | r | m
      · simp only [pushChunkedFolder, hemp2, Bool.false_eq_true, if_false, hout] at he
        rcases List.mem_append.mp he with h | h
        · obtain ⟨c, hcm, h1, h2⟩ := uploadChunksBatch_ops env svc folder
            (collectUnpushed files).2.1 (some repo) 50 e h pc hpc
          obtain ⟨f, hf1, hf2, hf3⟩ := collect_mem files c hcm
          exact ⟨f, hf1, hf2, by rw [hf3]; exact h1, by rw [hf3]; exact h2⟩
        · obtain ⟨p, c, hec, _⟩ := markChunks_events folder [] (collectUnpushed files).2.2
            (collectUnpushed files).2.1 files e h
          rw [hec] at hpc
          simp [opsOf] at hpc
      · simp only [pushChunkedFolder, hemp2, Bool.false_eq_true, if_false, hout] at he
        rcases List.mem_append.mp he with h | h
        · obtain ⟨c, hcm, h1, h2⟩ := uploadChunksBatch_ops env svc folder
            (collectUnpushed files).2.1 (some repo) 50 e h pc hpc
          obtain ⟨f, hf1, hf2, hf3⟩ := collect_mem files c hcm
          exact ⟨f, hf1, hf2, by rw [hf3]; exact h1, by rw [hf3]; exact h2⟩
        · obtain ⟨p, c, hec, _⟩ := markChunks_events folder r.failed_chunks
            (collectUnpushed files).2.2 (collectUnpushed files).2.1 files e h
          rw [hec] at hpc
          simp [opsOf] at hpc
      · simp only [pushChunkedFolder, hemp2, Bool.false_eq_true, if_false, hout] at he
        obtain ⟨c, hcm, h1, h2⟩ := uploadChunksBatch_ops env svc folder
          (collectUnpushed files).2.1 (some repo) 50 e he pc hpc
        obtain ⟨f, hf1, hf2, hf3⟩ := collect_mem files c hcm
        exact ⟨f, hf1, hf2, by rw [hf3]; exact h1, by rw [hf3]; exact h2⟩
  · intro r hne hrep
    have hemp2 : (collectUnpushed files).2.1.isEmpty = false := by
      cases h : (collectUnpushed files).2.1.isEmpty with
      | true => exact absurd (List.isEmpty_iff.mp h) hne
      | false => rfl
    simp only [pushChunkedFolder, hemp2, Bool.false_eq_true, if_false, hrep]
    exact ⟨trivial, trivial, trivial⟩

/-- A second demo folder: one marked file, one unmarked file. -/
def demoFiles2 : List ChunkFile :=
  [{ fileName := "chunk_01.json",
     data := { chunk_index := some 1, pushed_to_hf := true, payload := "p" } },
   { fileName := "chunk_05.json",
     data := { chunk_index := some 5, pushed_to_hf := false, payload := "v" } }]

/-- The report of the demo run on `demoFiles2`. -/
def reportDemo : UploadResult :=
  { success := true, message := "Uploaded 1 chunks (0 failed) to r", repo := "r",
    uploaded_count := 1, failed_count := 0, failed_chunks := [] }

/-- Witness for C7 on a concrete folder: the marked record is counted
skipped and kept out of the upload, the one commit operation carries the
unmarked record, and the counters equal those of the report. -/
theorem marked_chunks_skipped_witness :
    ((pushChunkedFolder envOk svcDemo "r" "doc" demoFiles2).skipped
        = (demoFiles2.filter (fun f => f.data.pushed_to_hf)).length)
      ∧ (demoFiles2.filter (fun f => f.data.pushed_to_hf)).length = 1
      ∧ (({ chunk_index := some 1, pushed_to_hf := true, payload := "p" } : Chunk)
          ∉ (collectUnpushed demoFiles2).2.1)
      ∧ (∃ f, f ∈ demoFiles2 ∧ f.data.pushed_to_hf = false
          ∧ (("doc/chunk_05.json", "json(5,unmarked,v)") : String × String).1
              = chunkOpPath "doc" f.data
          ∧ (("doc/chunk_05.json", "json(5,unmarked,v)") : String × String).2
              = encodeChunk f.data)
      ∧ ((pushChunkedFolder envOk svcDemo "r" "doc" demoFiles2).uploaded
            = reportDemo.uploaded_count
          ∧ (pushChunkedFolder envOk svcDemo "r" "doc" demoFiles2).failed
            = reportDemo.failed_count
          ∧ (pushChunkedFolder envOk svcDemo "r" "doc" demoFiles2).failed_chunks
            = reportDemo.failed_chunks) :=
  ⟨(marked_chunks_skipped envOk svcDemo "r" "doc" demoFiles2).1,
   by decide,
   (marked_chunks_skipped envOk svcDemo "r" "doc" demoFiles2).2.1 _ (by decide),
   (marked_chunks_skipped envOk svcDemo "r" "doc" demoFiles2).2.2.1
     (Event.commit "r" [("doc/chunk_05.json", "json(5,unmarked,v)")] "Add chunks 1-1 for doc")
     (by decide) ("doc/chunk_05.json", "json(5,unmarked,v)") (by decide),
   (marked_chunks_skipped envOk svcDemo "r" "doc" demoFiles2).2.2.2 reportDemo
     (by decide) (by decide)⟩

end RagPlatform
